import Mathlib

/-!
Verification development for the `py-omop2neo4j-lpg` repository.

The repository ships two Python trees of the same package:
* `src/omop2neo4j_lpg` — the package imported by the repository's unit tests
  (`tests/` inserts `../src` on `sys.path`); modelled below in namespace `Core`;
* `py-omop2neo4j-lpg/src/omop2neo4j_lpg` — an alternate draft tree carrying the
  CLI/loading modules cited by several claims; modelled in namespace `Alt`.

Characters are modelled as Unicode code points (`Nat`), strings as lists of
code points (`Str`).  The Python string methods `upper`, `lower`, `capitalize`
are applied by the code only to characters from the ASCII class
`[A-Za-z0-9_]` (everything else has been replaced beforehand), where their
behaviour coincides with the ASCII case maps modelled here.
-/

namespace Omop


/-- Strings as lists of Unicode code points. -/
abbrev Str := List Nat

/-- Code points of a Lean string literal, used to state concrete examples. -/
def enc (s : String) : Str := s.data.map Char.toNat

/-- Membership in the ASCII class `[A-Za-z0-9]`. -/
def isAlnumCode (n : Nat) : Bool :=
  (65 ≤ n && n ≤ 90) || (97 ≤ n && n ≤ 122) || (48 ≤ n && n ≤ 57)

/-- ASCII upper-casing of one code point (Python `str.upper` on `[a-z]`). -/
def upperCode (n : Nat) : Nat := if 97 ≤ n && n ≤ 122 then n - 32 else n

/-- ASCII lower-casing of one code point (Python `str.lower` on `[A-Z]`). -/
def lowerCode (n : Nat) : Nat := if 65 ≤ n && n ≤ 90 then n + 32 else n

namespace Core

/-- Pieces of `re.split(r'[^A-Za-z0-9]+', s)`: the text between the maximal
runs of non-alphanumeric characters, with an empty piece at an end of the
string that touches such a run. -/
def splitNonAlnum : Str → List Str
  | [] => [[]]
  | [c] => if isAlnumCode c then [[c]] else [[], []]
  | c :: d :: t =>
    if isAlnumCode c then
      (c :: (splitNonAlnum (d :: t)).headD []) :: (splitNonAlnum (d :: t)).tail
    else
      if isAlnumCode d then [] :: splitNonAlnum (d :: t) else splitNonAlnum (d :: t)

/-- Python `word[0].upper() + word[1:] if word else ""`. -/
def capFirst : Str → Str
  | [] => []
  | c :: cs => upperCode c :: cs

/-- `src/omop2neo4j_lpg/utils.py`, `standardize_label`. -/
def standardize_label (s : Str) : Str :=
  if s.isEmpty then [] else ((splitNonAlnum s).map capFirst).flatten

/-- Result of `re.sub(r'[^A-Za-z0-9]+', '_', s)`: every maximal run of
non-alphanumeric characters becomes a single underscore (code 95). -/
def subNonAlnum : Str → Str
  | [] => []
  | [c] => if isAlnumCode c then [c] else [95]
  | c :: d :: t =>
    if isAlnumCode c then c :: subNonAlnum (d :: t)
    else
      if isAlnumCode d then 95 :: subNonAlnum (d :: t) else subNonAlnum (d :: t)

/-- Result of `re.sub(r'_+', '_', s)`: runs of underscores collapsed to one. -/
def collapseUnd : Str → Str
  | [] => []
  | [c] => [c]
  | c :: d :: t =>
    if c = 95 then
      if d = 95 then collapseUnd (d :: t) else 95 :: collapseUnd (d :: t)
    else c :: collapseUnd (d :: t)

/-- Python `s.strip('_')`: all leading and trailing underscores removed. -/
def stripUnd (s : Str) : Str :=
  ((s.dropWhile (· = 95)).reverse.dropWhile (· = 95)).reverse

/-- `src/omop2neo4j_lpg/utils.py`, `standardize_reltype`. -/
def standardize_reltype (s : Str) : Str :=
  if s.isEmpty then [] else stripUnd (collapseUnd ((subNonAlnum s).map upperCode))

end Core

/-- Maximal runs of alphanumeric characters of a string, in order
(spec-side notion used by the sanitizer claims). -/
def alnumRuns : Str → List Str
  | [] => []
  | [c] => if isAlnumCode c then [[c]] else []
  | c :: d :: t =>
    if isAlnumCode c then
      if isAlnumCode d then
        (c :: (alnumRuns (d :: t)).headD []) :: (alnumRuns (d :: t)).tail
      else [c] :: alnumRuns (d :: t)
    else alnumRuns (d :: t)

/-- Modelled from the spec: `standardize_label` splits the input into maximal
runs of alphanumeric characters, discards all other characters, capitalizes
the first character of each run leaving the rest unchanged, and concatenates
the runs with no separator. -/
def labelSpec (s : Str) : Str := ((alnumRuns s).map Core.capFirst).flatten

/-- Modelled from the spec: `standardize_reltype` replaces every maximal run
of non-alphanumeric characters with a single underscore, uppercases the
result, and strips leading and trailing underscores. -/
def reltypeSpec (s : Str) : Str :=
  Core.stripUnd ((Core.subNonAlnum s).map upperCode)

/-- No two adjacent underscores occur in the string. -/
def noAdjUnd : Str → Prop
  | [] => True
  | [_] => True
  | a :: b :: t => ¬(a = 95 ∧ b = 95) ∧ noAdjUnd (b :: t)

/-- First code point of the string, if any, is a fixed point of `upperCode`. -/
def headUpperInv : Str → Prop
  | [] => True
  | c :: _ => upperCode c = c

/-- Membership in the ASCII class `[A-Za-z0-9_]` (Python regex `\w`-style
class used by the alternate tree's sanitizers). -/
def isWordCode (n : Nat) : Bool := isAlnumCode n || n == 95

/-- Python `str.split(sep)` and Cypher `split(s, sep)` for a one-character
separator: split at every occurrence of the separator, keeping empty pieces. -/
def splitOnCode (d : Nat) : Str → List Str
  | [] => [[]]
  | c :: cs =>
    if c = d then [] :: splitOnCode d cs
    else (c :: (splitOnCode d cs).headD []) :: (splitOnCode d cs).tail

/-- Python `str.capitalize()`: first character upper-cased, the remaining
characters lower-cased. -/
def pyCapitalize : Str → Str
  | [] => []
  | c :: cs => upperCode c :: cs.map lowerCode

namespace Alt

/-- Result of `re.sub(r'[^a-zA-Z0-9_]', '_', s)` in the alternate tree's
`utils.py`: each character outside `[A-Za-z0-9_]` becomes an underscore;
existing underscores are kept. -/
def subKeepUnd (s : Str) : Str := s.map (fun c => if isWordCode c then c else 95)

/-- Alternate tree `utils.py`, `standardize_label`. -/
def standardize_label (s : Str) : Str :=
  if s.isEmpty then []
  else ((((splitOnCode 95 (subKeepUnd s)).filter (fun w => !w.isEmpty)).map
    pyCapitalize)).flatten

/-- Alternate tree `utils.py`, `standardize_reltype`. -/
def standardize_reltype (s : Str) : Str :=
  if s.isEmpty then [] else (subKeepUnd s).map upperCode

end Alt

/-- Label column value computed for one concept row by
`prepare_for_bulk_import` (src tree, `transformation.py` lines 72–73):
`'Concept;' + standardize_label(domain_id)`, then `';Standard'` appended
when `standard_concept == 'S'`. -/
def Core.conceptLabelField (domain_id standard_concept : Str) : Str :=
  (enc "Concept;" ++ Core.standardize_label domain_id) ++
    (if standard_concept = enc "S" then enc ";Standard" else [])

/-- Modelled from the spec: the label set of a concept row as a pure function
of (domain identifier, standard flag) — the base label, the sanitized domain
label, and the `Standard` marker exactly when the flag is `'S'`. -/
def conceptLabels (domain_id standard_concept : Str) : List Str :=
  [enc "Concept", Core.standardize_label domain_id] ++
    (if standard_concept = enc "S" then [enc "Standard"] else [])

/-- Synonym list computed for a loaded Concept by `LOAD_CONCEPTS_QUERY`
(alternate tree, `loading.py` line 52):
`CASE WHEN row.synonyms IS NOT NULL AND row.synonyms <> ''
 THEN split(row.synonyms, '|') ELSE [] END`; `none` models a NULL field. -/
def Alt.synonymsProperty : Option Str → List Str
  | none => []
  | some s => if s = [] then [] else splitOnCode 124 s

/-- Stages of the online `load-csv` command (alternate tree, `cli.py` lines
59–73: `clear_database`, `create_constraints_and_indexes`, `load_metadata`,
`load_concepts`, `load_relationships`, `load_ancestors`), named as in the
spec's state machine. -/
inductive Stage where
  | clearing
  | schemaCreation
  | loadMetadata
  | loadConcepts
  | loadSemanticEdges
  | loadAncestorEdges
deriving DecidableEq, Fintype

/-- Outcome table for the six stages: `true` means the stage's calls return
normally, `false` means the stage raises. -/
def mkOutcome (b1 b2 b3 b4 b5 b6 : Bool) : Stage → Bool
  | .clearing => b1
  | .schemaCreation => b2
  | .loadMetadata => b3
  | .loadConcepts => b4
  | .loadSemanticEdges => b5
  | .loadAncestorEdges => b6

/-- The load stages after the optional clearing, in source order. -/
def loadStages : List Stage :=
  [.schemaCreation, .loadMetadata, .loadConcepts, .loadSemanticEdges,
   .loadAncestorEdges]

/-- Sequential execution of stages: each is attempted at most once, in order;
a failing stage ends execution (the exception propagates).  Returns the
stages that were executed and whether all of them succeeded. -/
def runStages (outcome : Stage → Bool) : List Stage → List Stage × Bool
  | [] => ([], true)
  | s :: rest =>
    if outcome s then
      ((runStages outcome rest).1.cons s, (runStages outcome rest).2)
    else ([s], false)

/-- Control flow of the `load-csv` CLI command (alternate tree, `cli.py`):
unless `--no-clean` is passed, the database wipe runs first and only after
operator confirmation (a refusal returns without loading); afterwards the
five load stages run in order, and a raising stage propagates out of the
command, skipping everything after it. -/
def load_csv (noClean confirmWipe : Bool) (outcome : Stage → Bool) :
    List Stage × Bool :=
  if noClean then runStages outcome loadStages
  else if confirmWipe then
    if outcome .clearing then
      ((runStages outcome loadStages).1.cons Stage.clearing,
        (runStages outcome loadStages).2)
    else ([Stage.clearing], false)
  else ([], true)

/-- The planned fixed stage order; clearing is dropped when `--no-clean`. -/
def plannedStages (noClean : Bool) : List Stage :=
  if noClean then loadStages else Stage.clearing :: loadStages

/-- Boolean test that the first list is an initial segment of the second. -/
def isInitSeg : List Stage → List Stage → Bool
  | [], _ => true
  | _ :: _, [] => false
  | a :: as, b :: bs => a == b && isInitSeg as bs

/-- Fuel-driven worker for `chunksOf`; the fuel bounds the number of pieces
and is instantiated with the list length, which always suffices. -/
def chunksOfAux {α : Type} (n : Nat) : Nat → List α → List (List α)
  | _, [] => []
  | 0, _ :: _ => []
  | fuel + 1, x :: xs => (x :: xs.take (n - 1)) :: chunksOfAux n fuel (xs.drop (n - 1))

/-- Chunking of `pandas.read_csv(..., chunksize=n)`: the rows in order, in
pieces of `n` (each piece nonempty; the last may be shorter).  A piece always
makes progress, so the list length bounds the number of pieces. -/
def chunksOf {α : Type} (n : Nat) (l : List α) : List (List α) :=
  chunksOfAux n l.length l

/-- A cell value of a record file: a string of code points. -/
abbrev Val := Str

/-- A pandas `DataFrame` as written to / read from a record file: a list of
column names and the rows, each row holding one value per column,
positionally. -/
structure DF where
  cols : List String
  rows : List (List Val)
deriving DecidableEq

/-- Index of a column name in a column list, if present. -/
def colIdx (cols : List String) (k : String) : Option Nat :=
  match cols with
  | [] => none
  | c :: cs => if c = k then some 0 else (colIdx cs k).map (· + 1)

/-- Column access `df[k]`; a missing column raises `KeyError` in pandas. -/
def DF.getCol (df : DF) (k : String) : Except String (List Val) :=
  match colIdx df.cols k with
  | some i => .ok (df.rows.map (fun r => r.getD i []))
  | none => .error ("KeyError: " ++ k)

/-- Rename map application to one column name: the mapped name when the
rename dictionary has an entry, the name itself otherwise. -/
def renameKey : List (String × String) → String → String
  | [], k => k
  | (a, b) :: m, k => if k = a then b else renameKey m k

/-- `df.rename(columns=m)`: only the column names change. -/
def DF.rename (df : DF) (m : List (String × String)) : DF :=
  { df with cols := df.cols.map (renameKey m) }

/-- Column assignment `df[k] = vals`: overwrite `k` in place when it exists,
otherwise append it as a new last column. -/
def DF.setCol (df : DF) (k : String) (vals : List Val) : DF :=
  match colIdx df.cols k with
  | some i => { df with rows := df.rows.zipWith (fun r v => r.set i v) vals }
  | none => { cols := df.cols ++ [k],
              rows := df.rows.zipWith (fun r v => r ++ [v]) vals }

/-- Scalar column assignment `df[k] = value`. -/
def DF.setConstCol (df : DF) (k : String) (v : Val) : DF :=
  df.setCol k (df.rows.map (fun _ => v))

/-- Column selection `df[ks]`; raises `KeyError` when a name is missing. -/
def DF.select (df : DF) (ks : List String) : Except String DF :=
  if ks.all (fun k => (colIdx df.cols k).isSome) then
    .ok { cols := ks,
          rows := df.rows.map (fun r => ks.map (fun k => r.getD ((colIdx df.cols k).getD 0) [])) }
  else .error "KeyError"

/-- `df.drop(columns=[k])`. -/
def DF.dropCol (df : DF) (k : String) : DF :=
  match colIdx df.cols k with
  | some i => { cols := df.cols.eraseIdx i, rows := df.rows.map (fun r => r.eraseIdx i) }
  | none => df

/-- A record file written to the output directory: base file name and the
data frame holding its contents. -/
abbrev Write := String × DF

namespace Alt

/-- Rename map of `transform_concepts_and_contextual_rels` (alternate tree,
`transformation.py` lines 48–54). -/
def conceptRenameMap : List (String × String) :=
  [("concept_id", ":ID(Concept-ID)"), ("concept_name", "name:string"),
   ("synonyms", "synonyms:string[]"),
   ("valid_start_date", "valid_start_date:date"),
   ("valid_end_date", "valid_end_date:date")]

/-- `node_cols` of `transform_concepts_and_contextual_rels` (lines 60–62). -/
def nodeCols : List String :=
  [":ID(Concept-ID)", ":LABEL", "name:string", "domain_id", "vocabulary_id",
   "concept_class_id", "standard_concept", "concept_code",
   "valid_start_date:date", "valid_end_date:date", "invalid_reason",
   "synonyms:string[]"]

/-- Columns of the `rels_in_domain.csv` records (lines 66–70). -/
def domRelCols : List String :=
  [":START_ID(Concept-ID)", ":END_ID(Domain-ID)", ":TYPE"]

/-- Columns of the `rels_from_vocabulary.csv` records (lines 73–77). -/
def vocRelCols : List String :=
  [":START_ID(Concept-ID)", ":END_ID(Vocabulary-ID)", ":TYPE"]

/-- `rel_cols` of `transform_semantic_rels` (lines 99–100). -/
def semRelCols : List String :=
  [":START_ID(Concept-ID)", ":END_ID(Concept-ID)", ":TYPE",
   "valid_start_date:date", "valid_end_date:date", "invalid_reason"]

/-- `rel_cols` of `transform_ancestor_rels` (line 122). -/
def ancRelCols : List String :=
  [":START_ID(Concept-ID)", ":END_ID(Concept-ID)", ":TYPE",
   "min_levels:int", "max_levels:int"]

/-- `transform_metadata_nodes` (alternate tree, `transformation.py` lines
10–29): the domain file is transformed and written first, then the
vocabulary file; an exception leaves the files already written in place. -/
def transform_metadata_nodes (domainIn vocabIn : DF) : List Write × Option String :=
  let dfD := (domainIn.setConstCol ":LABEL" (enc "Domain")).rename
    [("domain_id", ":ID(Domain-ID)")]
  match dfD.select [":ID(Domain-ID)", ":LABEL", "domain_name", "domain_concept_id"] with
  | .error e => ([], some e)
  | .ok selD =>
    let dfV := (vocabIn.setConstCol ":LABEL" (enc "Vocabulary")).rename
      [("vocabulary_id", ":ID(Vocabulary-ID)")]
    match dfV.select [":ID(Vocabulary-ID)", ":LABEL", "vocabulary_name",
        "vocabulary_reference", "vocabulary_version", "vocabulary_concept_id"] with
    | .error e => ([("nodes_domain.csv", selD)], some e)
    | .ok selV =>
      ([("nodes_domain.csv", selD), ("nodes_vocabulary.csv", selV)], none)

/-- Body of the chunk loop of `transform_concepts_and_contextual_rels`
(lines 45–78): rename, derive `domain_label` and `:LABEL`, append
`;Standard` on the flagged rows, select the node columns, and build the two
contextual-relationship frames from the chunk's own columns. -/
def processConceptChunk (chunk : DF) : Except String (DF × DF × DF) := do
  let c1 := chunk.rename conceptRenameMap
  let doms ← c1.getCol "domain_id"
  let c2 := c1.setCol "domain_label" (doms.map Alt.standardize_label)
  let dl ← c2.getCol "domain_label"
  let c3 := c2.setCol ":LABEL" (dl.map (fun v => enc "Concept;" ++ v))
  let stds ← c3.getCol "standard_concept"
  let lbls ← c3.getCol ":LABEL"
  let c4 := c3.setCol ":LABEL"
    ((lbls.zip stds).map (fun p => if p.2 = enc "S" then p.1 ++ enc ";Standard" else p.1))
  let nodes ← c4.select nodeCols
  let ids ← c4.getCol ":ID(Concept-ID)"
  let doms2 ← c4.getCol "domain_id"
  let relsDom : DF := ⟨domRelCols, (ids.zip doms2).map (fun p => [p.1, p.2, enc "IN_DOMAIN"])⟩
  let vocs ← c4.getCol "vocabulary_id"
  let relsVoc : DF := ⟨vocRelCols, (ids.zip vocs).map (fun p => [p.1, p.2, enc "FROM_VOCABULARY"])⟩
  return (nodes, relsDom, relsVoc)

/-- Chunk loop appending to three output files: rows of chunks processed
before a raise stay written; nothing after the raise runs. -/
def runChunks3 (f : DF → Except String (DF × DF × DF)) :
    List DF → (List (List Val) × List (List Val) × List (List Val)) × Option String
  | [] => (([], [], []), none)
  | c :: cs =>
    match f c with
    | .error e => (([], [], []), some e)
    | .ok (a, b, d) =>
      match runChunks3 f cs with
      | ((as, bs, ds), err) => ((a.rows ++ as, b.rows ++ bs, d.rows ++ ds), err)

/-- `transform_concepts_and_contextual_rels` (lines 31–79).  The three output
files exist exactly when at least one chunk was processed (they are removed
up front and appended per chunk; a column error occurs before any write of
the failing chunk). -/
def transform_concepts_and_contextual_rels (chunkSize : Nat) (conceptIn : DF) :
    List Write × Option String :=
  let pieces := (chunksOf chunkSize conceptIn.rows).map (fun rs => DF.mk conceptIn.cols rs)
  match runChunks3 processConceptChunk pieces with
  | ((nrows, drows, vrows), err) =>
    if nrows.isEmpty then ([], err)
    else ([("nodes_concepts.csv", ⟨nodeCols, nrows⟩),
           ("rels_in_domain.csv", ⟨domRelCols, drows⟩),
           ("rels_from_vocabulary.csv", ⟨vocRelCols, vrows⟩)], err)

/-- Chunk loop appending to a single output file. -/
def runChunks1 (f : DF → Except String DF) :
    List DF → List (List Val) × Option String
  | [] => ([], none)
  | c :: cs =>
    match f c with
    | .error e => ([], some e)
    | .ok df =>
      match runChunks1 f cs with
      | (rs, err) => (df.rows ++ rs, err)

/-- Body of the chunk loop of `transform_semantic_rels` (lines 90–101). -/
def processSemanticChunk (chunk : DF) : Except String DF := do
  let c1 := chunk.rename [("concept_id_1", ":START_ID(Concept-ID)"),
    ("concept_id_2", ":END_ID(Concept-ID)"),
    ("valid_start_date", "valid_start_date:date"),
    ("valid_end_date", "valid_end_date:date")]
  let rels ← c1.getCol "relationship_id"
  let c2 := c1.setCol ":TYPE" (rels.map Alt.standardize_reltype)
  c2.select semRelCols

/-- `transform_semantic_rels` (lines 81–102). -/
def transform_semantic_rels (chunkSize : Nat) (relIn : DF) :
    List Write × Option String :=
  let pieces := (chunksOf chunkSize relIn.rows).map (fun rs => DF.mk relIn.cols rs)
  match runChunks1 processSemanticChunk pieces with
  | (rs, err) =>
    (if rs.isEmpty then [] else [("rels_semantic.csv", ⟨semRelCols, rs⟩)], err)

/-- Body of the chunk loop of `transform_ancestor_rels` (lines 113–123). -/
def processAncestorChunk (chunk : DF) : Except String DF := do
  let c1 := chunk.rename [("descendant_concept_id", ":START_ID(Concept-ID)"),
    ("ancestor_concept_id", ":END_ID(Concept-ID)"),
    ("min_levels_of_separation", "min_levels:int"),
    ("max_levels_of_separation", "max_levels:int")]
  let c2 := c1.setConstCol ":TYPE" (enc "HAS_ANCESTOR")
  c2.select ancRelCols

/-- `transform_ancestor_rels` (lines 104–124). -/
def transform_ancestor_rels (chunkSize : Nat) (ancIn : DF) :
    List Write × Option String :=
  let pieces := (chunksOf chunkSize ancIn.rows).map (fun rs => DF.mk ancIn.cols rs)
  match runChunks1 processAncestorChunk pieces with
  | (rs, err) =>
    (if rs.isEmpty then [] else [("rels_ancestor.csv", ⟨ancRelCols, rs⟩)], err)

/-- `prepare_for_bulk_import` (alternate tree, `transformation.py` lines
151–171): the four transforms run in order; an exception in one of them
propagates to the CLI, leaving the writes of the completed transforms (and
of the failing transform's completed chunks) on disk and skipping everything
after it.  On full success the CLI additionally prints the `neo4j-admin`
command; no file is written by that step. -/
def prepare_for_bulk_import (chunkSize : Nat)
    (domainIn vocabIn conceptIn relIn ancIn : DF) : List Write × Option String :=
  match transform_metadata_nodes domainIn vocabIn with
  | (w1, some e) => (w1, some e)
  | (w1, none) =>
    match transform_concepts_and_contextual_rels chunkSize conceptIn with
    | (w2, some e) => (w1 ++ w2, some e)
    | (w2, none) =>
      match transform_semantic_rels chunkSize relIn with
      | (w3, some e) => (w1 ++ w2 ++ w3, some e)
      | (w3, none) =>
        match transform_ancestor_rels chunkSize ancIn with
        | (w4, some e) => (w1 ++ w2 ++ w3 ++ w4, some e)
        | (w4, none) => (w1 ++ w2 ++ w3 ++ w4, none)

end Alt

/-- Column order of `concepts_optimized.csv`, fixed by the extraction SQL
(`extraction.py`): the ten concept columns followed by the aggregated
`synonyms` column. -/
def conceptFileCols : List String :=
  ["concept_id", "concept_name", "domain_id", "vocabulary_id",
   "concept_class_id", "standard_concept", "concept_code", "valid_start_date",
   "valid_end_date", "invalid_reason", "synonyms"]

/-- Label value derived from one concept row (positions 2 and 5 are
`domain_id` and `standard_concept` in `conceptFileCols`). -/
def Alt.conceptLabelOfRow (r : List Val) : Val :=
  (enc "Concept;" ++ Alt.standardize_label (r.getD 2 [])) ++
    (if r.getD 5 [] = enc "S" then enc ";Standard" else [])

/-- Node record derived from one concept row, in `nodeCols` order. -/
def Alt.nodeRowOfRow (r : List Val) : List Val :=
  [r.getD 0 [], Alt.conceptLabelOfRow r, r.getD 1 [], r.getD 2 [], r.getD 3 [],
   r.getD 4 [], r.getD 5 [], r.getD 6 [], r.getD 7 [], r.getD 8 [], r.getD 9 [],
   r.getD 10 []]

/-- Domain edge record derived from one concept row: its own concept and
domain identifiers plus the constant type, no lookup elsewhere. -/
def Alt.domRelOfRow (r : List Val) : List Val :=
  [r.getD 0 [], r.getD 2 [], enc "IN_DOMAIN"]

/-- Vocabulary edge record derived from one concept row. -/
def Alt.vocRelOfRow (r : List Val) : List Val :=
  [r.getD 0 [], r.getD 3 [], enc "FROM_VOCABULARY"]

/-- Domain fixture for the C8 witness. -/
def fxDomain : DF :=
  ⟨["domain_id", "domain_name", "domain_concept_id"],
   [[enc "Drug", enc "Drug", enc "13"]]⟩

/-- Vocabulary fixture for the C8 witness. -/
def fxVocab : DF :=
  ⟨["vocabulary_id", "vocabulary_name", "vocabulary_reference",
    "vocabulary_version", "vocabulary_concept_id"],
   [[enc "RxNorm", enc "RxNorm", enc "ref", enc "v1", enc "44"]]⟩

/-- Concept fixture for the C8 witness. -/
def fxConcepts : DF :=
  ⟨conceptFileCols,
   [[enc "1001", enc "Aspirin", enc "Drug", enc "RxNorm", enc "Ingredient",
     enc "S", enc "A1", enc "2000-01-01", enc "2099-12-31", enc "", enc "x|y"]]⟩

/-- Malformed semantic-relationship fixture for the C8 witness: the required
`relationship_id` column is missing. -/
def fxRelMissing : DF :=
  ⟨["concept_id_1", "concept_id_2", "valid_start_date", "valid_end_date",
    "invalid_reason"],
   [[enc "1001", enc "1002", enc "2000-01-01", enc "2099-12-31", enc ""]]⟩

/-- Ancestor fixture for the C8 witness. -/
def fxAncestor : DF :=
  ⟨["descendant_concept_id", "ancestor_concept_id",
    "min_levels_of_separation", "max_levels_of_separation"],
   [[enc "1001", enc "1002", enc "1", enc "1"]]⟩

/-- Metadata writes produced from the C8 witness fixtures. -/
def fxMetaWrites : List Write :=
  [("nodes_domain.csv",
    ⟨[":ID(Domain-ID)", ":LABEL", "domain_name", "domain_concept_id"],
     [[enc "Drug", enc "Domain", enc "Drug", enc "13"]]⟩),
   ("nodes_vocabulary.csv",
    ⟨[":ID(Vocabulary-ID)", ":LABEL", "vocabulary_name",
      "vocabulary_reference", "vocabulary_version", "vocabulary_concept_id"],
     [[enc "RxNorm", enc "Vocabulary", enc "RxNorm", enc "ref", enc "v1",
       enc "44"]]⟩)]

/-- Concept writes produced from the C8 witness fixtures. -/
def fxConceptWrites : List Write :=
  [("nodes_concepts.csv",
    ⟨Alt.nodeCols,
     [[enc "1001", enc "Concept;Drug;Standard", enc "Aspirin", enc "Drug",
       enc "RxNorm", enc "Ingredient", enc "S", enc "A1", enc "2000-01-01",
       enc "2099-12-31", enc "", enc "x|y"]]⟩),
   ("rels_in_domain.csv",
    ⟨Alt.domRelCols, [[enc "1001", enc "Drug", enc "IN_DOMAIN"]]⟩),
   ("rels_from_vocabulary.csv",
    ⟨Alt.vocRelCols, [[enc "1001", enc "RxNorm", enc "FROM_VOCABULARY"]]⟩)]

/-- `os.path.join` for the relative paths appearing in the generated
command (the output directory never carries a trailing slash). -/
def joinPath (dir name : String) : String := dir ++ "/" ++ name

namespace Core

/-- `concept_cols` rename dict of `prepare_for_bulk_import` (src tree,
`transformation.py` lines 62–68). -/
def conceptColsMap : List (String × String) :=
  [("concept_id", ":ID(Concept)"), ("concept_name", "name:string"),
   ("concept_code", "concept_code:string"),
   ("standard_concept", "standard_concept:string"),
   ("invalid_reason", "invalid_reason:string"),
   ("valid_start_date", "valid_start_date:date"),
   ("valid_end_date", "valid_end_date:date"),
   ("synonyms", "synonyms:string[]")]

/-- Columns of `nodes_concept.csv`: `list(concept_cols.values()) + [':LABEL']`
(line 79). -/
def nodeColsList : List String := conceptColsMap.map Prod.snd ++ [":LABEL"]

/-- Body of the concept chunk loop (lines 70–95): label assembly on the raw
columns, the `;Standard` suffix for flagged rows, rename, node selection,
and the two contextual-relationship frames. -/
def processConceptChunk (chunk : DF) : Except String (DF × DF × DF) := do
  let doms ← chunk.getCol "domain_id"
  let c1 := chunk.setCol ":LABEL"
    (doms.map (fun v => enc "Concept;" ++ Core.standardize_label v))
  let stds ← c1.getCol "standard_concept"
  let lbls ← c1.getCol ":LABEL"
  let c2 := c1.setCol ":LABEL"
    ((lbls.zip stds).map (fun p => if p.2 = enc "S" then p.1 ++ enc ";Standard" else p.1))
  let c3 := c2.rename conceptColsMap
  let nodes ← c3.select nodeColsList
  let rd0 ← c3.select [":ID(Concept)", "domain_id"]
  let rd := (rd0.rename [("domain_id", ":END_ID(Domain)")]).setConstCol ":TYPE"
    (enc "IN_DOMAIN")
  let rv0 ← c3.select [":ID(Concept)", "vocabulary_id"]
  let rv := (rv0.rename [("vocabulary_id", ":END_ID(Vocabulary)")]).setConstCol ":TYPE"
    (enc "FROM_VOCABULARY")
  return (nodes, rd, rv)

/-- Body of the semantic chunk loop (lines 101–112): rename, derive `:TYPE`
with `standardize_reltype`, drop `relationship_id`, write all remaining
columns. -/
def processSemanticChunk (chunk : DF) : Except String DF := do
  let c1 := chunk.rename [("concept_id_1", ":START_ID(Concept)"),
    ("concept_id_2", ":END_ID(Concept)"),
    ("valid_start_date", "valid_start_date:date"),
    ("valid_end_date", "valid_end_date:date"),
    ("invalid_reason", "invalid_reason:string")]
  let rels ← c1.getCol "relationship_id"
  let c2 := c1.setCol ":TYPE" (rels.map Core.standardize_reltype)
  return (c2.dropCol "relationship_id")

/-- Body of the ancestor chunk loop (lines 118–127): rename and stamp the
constant `:TYPE`; no column access can raise here. -/
def processAncestorChunk (chunk : DF) : DF :=
  (chunk.rename [("descendant_concept_id", ":START_ID(Concept)"),
    ("ancestor_concept_id", ":END_ID(Concept)"),
    ("min_levels_of_separation", "min_levels:int"),
    ("max_levels_of_separation", "max_levels:int")]).setConstCol ":TYPE"
    (enc "HAS_ANCESTOR")

/-- Chunk loop over the concept file.  (This `Except`-monadic form agrees
with the code on every successful run; the files partially written before a
raise are not tracked here, they are covered by the failure-isolation model
of the alternate tree.) -/
def runChunksE3 (f : DF → Except String (DF × DF × DF)) :
    List DF → Except String (List (List Val) × List (List Val) × List (List Val))
  | [] => .ok ([], [], [])
  | c :: cs => do
    let (a, b, d) ← f c
    let (as, bs, ds) ← runChunksE3 f cs
    return (a.rows ++ as, b.rows ++ bs, d.rows ++ ds)

/-- Chunk loop over a single-output file. -/
def runChunksE1 (f : DF → Except String DF) :
    List DF → Except String (List (List Val))
  | [] => .ok []
  | c :: cs => do
    let df ← f c
    let rs ← runChunksE1 f cs
    return (df.rows ++ rs)

/-- Columns of one name list after a rename. -/
def renameCols (m : List (String × String)) (cols : List String) : List String :=
  cols.map (renameKey m)

/-- Columns after a column assignment: unchanged when present, appended
otherwise. -/
def setColCols (k : String) (cols : List String) : List String :=
  if (colIdx cols k).isSome then cols else cols ++ [k]

/-- Columns after `drop(columns=[k])`. -/
def dropColCols (k : String) (cols : List String) : List String :=
  match colIdx cols k with
  | some i => cols.eraseIdx i
  | none => cols

/-- Columns of `rels_semantic.csv` as a function of the input columns. -/
def colsAfterSemantic (cols : List String) : List String :=
  dropColCols "relationship_id" (setColCols ":TYPE"
    (renameCols [("concept_id_1", ":START_ID(Concept)"),
      ("concept_id_2", ":END_ID(Concept)"),
      ("valid_start_date", "valid_start_date:date"),
      ("valid_end_date", "valid_end_date:date"),
      ("invalid_reason", "invalid_reason:string")] cols))

/-- Columns of `rels_ancestor.csv` as a function of the input columns. -/
def colsAfterAncestor (cols : List String) : List String :=
  setColCols ":TYPE"
    (renameCols [("descendant_concept_id", ":START_ID(Concept)"),
      ("ancestor_concept_id", ":END_ID(Concept)"),
      ("min_levels_of_separation", "min_levels:int"),
      ("max_levels_of_separation", "max_levels:int")] cols)

/-- The `node_files` dictionary of the header/command phase (lines 132–136):
data file name and header file name per node category. -/
def nodeHeaderPairs : List (String × String) :=
  [("nodes_domain.csv", "nodes_domain_header.csv"),
   ("nodes_vocabulary.csv", "nodes_vocabulary_header.csv"),
   ("nodes_concept.csv", "nodes_concept_header.csv")]

/-- The `rel_files` dictionary (lines 137–142). -/
def relHeaderPairs : List (String × String) :=
  [("rels_in_domain.csv", "rels_in_domain_header.csv"),
   ("rels_from_vocabulary.csv", "rels_from_vocabulary_header.csv"),
   ("rels_semantic.csv", "rels_semantic_header.csv"),
   ("rels_ancestor.csv", "rels_ancestor_header.csv")]

/-- The global options line of the generated command (line 162). -/
def optionsPart : String :=
  "  --delimiter=',' --array-delimiter='|' --multiline-fields=true \\"

/-- Header/command loop (lines 146–160): for each pair, read the written
data file's columns (`pd.read_csv(..., nrows=0)` raises when the file does
not exist), write the header file containing only those column names, and
append one command line for the header path and one for the data path. -/
def headerLoop (importDir flag : String) (store : List Write) :
    List (String × String) → Except String (List Write × List String)
  | [] => .ok ([], [])
  | (dName, hName) :: rest =>
    match store.lookup dName with
    | none => .error "FileNotFoundError"
    | some df => do
      let (ws, ps) ← headerLoop importDir flag store rest
      return ((hName, DF.mk df.cols []) :: ws,
        ("  --" ++ flag ++ "='" ++ joinPath importDir hName ++ "' \\") ::
        ("  --" ++ flag ++ "='" ++ joinPath importDir dName ++ "' \\") :: ps)

/-- `prepare_for_bulk_import` (src tree, `transformation.py`): metadata and
chunked transforms write the seven data files (a chunked file exists only
when at least one chunk was processed), then the header files and the
`neo4j-admin database import full` command are generated; the command ends
with the options line and the target database name `neo4j` and is the
newline-join of its parts. -/
def prepare_for_bulk_import (importDir : String) (chunkSize : Nat)
    (domainIn vocabIn conceptIn relIn ancIn : DF) :
    Except String (List Write × List String × String) := do
  let dfD := (domainIn.setConstCol ":LABEL" (enc "Domain")).rename
    [("domain_id", ":ID(Domain)")]
  let dfV := (vocabIn.setConstCol ":LABEL" (enc "Vocabulary")).rename
    [("vocabulary_id", ":ID(Vocabulary)")]
  let cpieces := (chunksOf chunkSize conceptIn.rows).map
    (fun rs => DF.mk conceptIn.cols rs)
  let (nrows, drows, vrows) ← runChunksE3 processConceptChunk cpieces
  let spieces := (chunksOf chunkSize relIn.rows).map
    (fun rs => DF.mk relIn.cols rs)
  let srows ← runChunksE1 processSemanticChunk spieces
  let apieces := (chunksOf chunkSize ancIn.rows).map
    (fun rs => DF.mk ancIn.cols rs)
  let arows := (apieces.map (fun c => (processAncestorChunk c).rows)).flatten
  let store : List Write :=
    [("nodes_domain.csv", dfD), ("nodes_vocabulary.csv", dfV)] ++
    (if nrows.isEmpty then [] else
      [("nodes_concept.csv", DF.mk nodeColsList nrows),
       ("rels_in_domain.csv", DF.mk [":ID(Concept)", ":END_ID(Domain)", ":TYPE"] drows),
       ("rels_from_vocabulary.csv",
        DF.mk [":ID(Concept)", ":END_ID(Vocabulary)", ":TYPE"] vrows)]) ++
    (if srows.isEmpty then [] else
      [("rels_semantic.csv", DF.mk (colsAfterSemantic relIn.cols) srows)]) ++
    (if arows.isEmpty then [] else
      [("rels_ancestor.csv", DF.mk (colsAfterAncestor ancIn.cols) arows)])
  let (hw1, ps1) ← headerLoop importDir "nodes" store nodeHeaderPairs
  let (hw2, ps2) ← headerLoop importDir "relationships" store relHeaderPairs
  let parts := ["neo4j-admin database import full \\"] ++ ps1 ++ ps2 ++
    [optionsPart, "  neo4j"]
  return (store ++ hw1 ++ hw2, parts, String.intercalate "\n" parts)

end Core

/-- Well-formed semantic-relationship fixture (all required columns). -/
def fxRels : DF :=
  ⟨["concept_id_1", "concept_id_2", "relationship_id", "valid_start_date",
    "valid_end_date", "invalid_reason"],
   [[enc "1001", enc "1002", enc "maps to", enc "2000-01-01",
     enc "2099-12-31", enc ""]]⟩

/-- The files written by the C5 witness run: seven data files followed by
their seven header files. -/
def fxPrepWrites : List Write :=
  [("nodes_domain.csv",
    DF.mk [":ID(Domain)", "domain_name", "domain_concept_id", ":LABEL"]
      [[enc "Drug", enc "Drug", enc "13", enc "Domain"]]),
   ("nodes_vocabulary.csv",
    DF.mk [":ID(Vocabulary)", "vocabulary_name", "vocabulary_reference",
      "vocabulary_version", "vocabulary_concept_id", ":LABEL"]
      [[enc "RxNorm", enc "RxNorm", enc "ref", enc "v1", enc "44",
        enc "Vocabulary"]]),
   ("nodes_concept.csv",
    DF.mk [":ID(Concept)", "name:string", "concept_code:string",
      "standard_concept:string", "invalid_reason:string",
      "valid_start_date:date", "valid_end_date:date", "synonyms:string[]",
      ":LABEL"]
      [[enc "1001", enc "Aspirin", enc "A1", enc "S", enc "",
        enc "2000-01-01", enc "2099-12-31", enc "x|y",
        enc "Concept;Drug;Standard"]]),
   ("rels_in_domain.csv",
    DF.mk [":ID(Concept)", ":END_ID(Domain)", ":TYPE"]
      [[enc "1001", enc "Drug", enc "IN_DOMAIN"]]),
   ("rels_from_vocabulary.csv",
    DF.mk [":ID(Concept)", ":END_ID(Vocabulary)", ":TYPE"]
      [[enc "1001", enc "RxNorm", enc "FROM_VOCABULARY"]]),
   ("rels_semantic.csv",
    DF.mk [":START_ID(Concept)", ":END_ID(Concept)", "valid_start_date:date",
      "valid_end_date:date", "invalid_reason:string", ":TYPE"]
      [[enc "1001", enc "1002", enc "2000-01-01", enc "2099-12-31", enc "",
        enc "MAPS_TO"]]),
   ("rels_ancestor.csv",
    DF.mk [":START_ID(Concept)", ":END_ID(Concept)", "min_levels:int",
      "max_levels:int", ":TYPE"]
      [[enc "1001", enc "1002", enc "1", enc "1", enc "HAS_ANCESTOR"]]),
   ("nodes_domain_header.csv",
    DF.mk [":ID(Domain)", "domain_name", "domain_concept_id", ":LABEL"] []),
   ("nodes_vocabulary_header.csv",
    DF.mk [":ID(Vocabulary)", "vocabulary_name", "vocabulary_reference",
      "vocabulary_version", "vocabulary_concept_id", ":LABEL"] []),
   ("nodes_concept_header.csv",
    DF.mk [":ID(Concept)", "name:string", "concept_code:string",
      "standard_concept:string", "invalid_reason:string",
      "valid_start_date:date", "valid_end_date:date", "synonyms:string[]",
      ":LABEL"] []),
   ("rels_in_domain_header.csv",
    DF.mk [":ID(Concept)", ":END_ID(Domain)", ":TYPE"] []),
   ("rels_from_vocabulary_header.csv",
    DF.mk [":ID(Concept)", ":END_ID(Vocabulary)", ":TYPE"] []),
   ("rels_semantic_header.csv",
    DF.mk [":START_ID(Concept)", ":END_ID(Concept)", "valid_start_date:date",
      "valid_end_date:date", "invalid_reason:string", ":TYPE"] []),
   ("rels_ancestor_header.csv",
    DF.mk [":START_ID(Concept)", ":END_ID(Concept)", "min_levels:int",
      "max_levels:int", ":TYPE"] [])]

/-- The command parts generated by the C5 witness run. -/
def fxPrepParts : List String :=
  ["neo4j-admin database import full \\",
   "  --nodes='bulk_import/nodes_domain_header.csv' \\",
   "  --nodes='bulk_import/nodes_domain.csv' \\",
   "  --nodes='bulk_import/nodes_vocabulary_header.csv' \\",
   "  --nodes='bulk_import/nodes_vocabulary.csv' \\",
   "  --nodes='bulk_import/nodes_concept_header.csv' \\",
   "  --nodes='bulk_import/nodes_concept.csv' \\",
   "  --relationships='bulk_import/rels_in_domain_header.csv' \\",
   "  --relationships='bulk_import/rels_in_domain.csv' \\",
   "  --relationships='bulk_import/rels_from_vocabulary_header.csv' \\",
   "  --relationships='bulk_import/rels_from_vocabulary.csv' \\",
   "  --relationships='bulk_import/rels_semantic_header.csv' \\",
   "  --relationships='bulk_import/rels_semantic.csv' \\",
   "  --relationships='bulk_import/rels_ancestor_header.csv' \\",
   "  --relationships='bulk_import/rels_ancestor.csv' \\",
   "  --delimiter=',' --array-delimiter='|' --multiline-fields=true \\",
   "  neo4j"]

theorem noAdjUnd_cons {a : Nat} {l : Str} (ha : a ≠ 95) (hl : noAdjUnd l) :
    noAdjUnd (a :: l) := by
  cases l with
  | nil => trivial
  | cons b t => exact ⟨fun h => ha h.1, hl⟩

theorem noAdjUnd_tail {a : Nat} {l : Str} (h : noAdjUnd (a :: l)) : noAdjUnd l := by
  cases l with
  | nil => trivial
  | cons b t => exact h.2

theorem upperCode_eq_95 {c : Nat} (h : upperCode c = 95) : c = 95 := by
  unfold upperCode at h
  split at h
  · next hc =>
    simp only [Bool.and_eq_true, decide_eq_true_eq] at hc
    omega
  · exact h

theorem not_alnum_95 {c : Nat} (h : isAlnumCode c = true) : c ≠ 95 := by
  intro hc; subst hc; simp [isAlnumCode] at h

theorem subNonAlnum_alnum_head {d : Nat} (t : Str) (hd : isAlnumCode d = true) :
    Core.subNonAlnum (d :: t) = d :: (Core.subNonAlnum (d :: t)).tail := by
  cases t with
  | nil => simp [Core.subNonAlnum, hd]
  | cons e u => simp [Core.subNonAlnum, hd]

theorem subNonAlnum_noAdj : ∀ s : Str, noAdjUnd (Core.subNonAlnum s) := by
  intro s
  induction s with
  | nil => trivial
  | cons c cs ih =>
    cases cs with
    | nil =>
      by_cases hc : isAlnumCode c = true <;> simp [Core.subNonAlnum, hc] <;> trivial
    | cons d t =>
      by_cases hc : isAlnumCode c = true
      · rw [show Core.subNonAlnum (c :: d :: t) = c :: Core.subNonAlnum (d :: t) by
          simp [Core.subNonAlnum, hc]]
        exact noAdjUnd_cons (not_alnum_95 hc) ih
      · have hc' : isAlnumCode c = false := by simpa using hc
        by_cases hd : isAlnumCode d = true
        · rw [show Core.subNonAlnum (c :: d :: t) = 95 :: Core.subNonAlnum (d :: t) by
            simp [Core.subNonAlnum, hc', hd]]
          rw [subNonAlnum_alnum_head t hd] at ih ⊢
          exact ⟨fun h => not_alnum_95 hd h.2, ih⟩
        · have hd' : isAlnumCode d = false := by simpa using hd
          rw [show Core.subNonAlnum (c :: d :: t) = Core.subNonAlnum (d :: t) by
            simp [Core.subNonAlnum, hc', hd']]
          exact ih

theorem noAdjUnd_map_upper : ∀ l : Str, noAdjUnd l → noAdjUnd (l.map upperCode) := by
  intro l
  induction l with
  | nil => intro _; trivial
  | cons a l ih =>
    intro h
    cases l with
    | nil => trivial
    | cons b t =>
      refine ⟨fun hab => h.1 ⟨upperCode_eq_95 hab.1, upperCode_eq_95 hab.2⟩, ?_⟩
      exact ih h.2

theorem collapseUnd_eq_self : ∀ l : Str, noAdjUnd l → Core.collapseUnd l = l := by
  intro l
  induction l with
  | nil => intro _; rfl
  | cons c cs ih =>
    intro h
    cases cs with
    | nil => rfl
    | cons d t =>
      by_cases hc : c = 95
      · subst hc
        have hd : ¬ d = 95 := fun hdd => h.1 ⟨rfl, hdd⟩
        have e : Core.collapseUnd (95 :: d :: t) = 95 :: Core.collapseUnd (d :: t) := by
          simp [Core.collapseUnd, hd]
        rw [e, ih (noAdjUnd_tail h)]
      · have e : Core.collapseUnd (c :: d :: t) = c :: Core.collapseUnd (d :: t) := by
          simp [Core.collapseUnd, hc]
        rw [e, ih (noAdjUnd_tail h)]

/-- C1: `standardize_reltype`, applied to any string, replaces every maximal
run of non-alphanumeric characters with a single underscore, uppercases the
result, and strips leading and trailing underscores; in particular
`standardize_reltype("maps to") == "MAPS_TO"`,
`standardize_reltype("_leading_sep") == "LEADING_SEP"`, and
`standardize_reltype("") == ""`. -/
theorem standardize_reltype_matches_spec :
    (∀ s : Str, Core.standardize_reltype s = reltypeSpec s) ∧
    Core.standardize_reltype (enc "maps to") = enc "MAPS_TO" ∧
    Core.standardize_reltype (enc "_leading_sep") = enc "LEADING_SEP" ∧
    Core.standardize_reltype (enc "") = enc "" := by
  refine ⟨?_, by decide, by decide, by decide⟩
  intro s
  cases s with
  | nil => rfl
  | cons c cs =>
    unfold Core.standardize_reltype reltypeSpec
    rw [List.isEmpty_cons, if_neg (by simp)]
    rw [collapseUnd_eq_self _ (noAdjUnd_map_upper _ (subNonAlnum_noAdj _))]

theorem splitNonAlnum_alnum_head {d : Nat} (t : Str) (hd : isAlnumCode d = true) :
    ∃ X B, Core.splitNonAlnum (d :: t) = (d :: X) :: B := by
  cases t with
  | nil => exact ⟨[], [], by simp [Core.splitNonAlnum, hd]⟩
  | cons e u =>
    exact ⟨(Core.splitNonAlnum (e :: u)).headD [], (Core.splitNonAlnum (e :: u)).tail,
      by simp [Core.splitNonAlnum, hd]⟩

theorem splitNonAlnum_sep_head :
    ∀ (cs : Str) (c : Nat), isAlnumCode c = false →
      ∃ ws, Core.splitNonAlnum (c :: cs) = [] :: ws := by
  intro cs
  induction cs with
  | nil => intro c hc; exact ⟨[[]], by simp [Core.splitNonAlnum, hc]⟩
  | cons d t ih =>
    intro c hc
    by_cases hd : isAlnumCode d = true
    · exact ⟨Core.splitNonAlnum (d :: t), by simp [Core.splitNonAlnum, hc, hd]⟩
    · have hd' : isAlnumCode d = false := by simpa using hd
      obtain ⟨ws, hws⟩ := ih d hd'
      refine ⟨ws, ?_⟩
      rw [show Core.splitNonAlnum (c :: d :: t) = Core.splitNonAlnum (d :: t) by
        simp [Core.splitNonAlnum, hc, hd']]
      exact hws

theorem splitNonAlnum_filter_eq_alnumRuns :
    ∀ s : Str,
      (Core.splitNonAlnum s).filter (fun w => !w.isEmpty) = alnumRuns s := by
  intro s
  induction s with
  | nil => simp [Core.splitNonAlnum, alnumRuns]
  | cons c cs ih =>
    cases cs with
    | nil =>
      by_cases hc : isAlnumCode c = true <;> simp [Core.splitNonAlnum, alnumRuns, hc]
    | cons d t =>
      by_cases hc : isAlnumCode c = true
      · by_cases hd : isAlnumCode d = true
        · obtain ⟨X, B, e3⟩ := splitNonAlnum_alnum_head t hd
          have e1 : Core.splitNonAlnum (c :: d :: t) = (c :: d :: X) :: B := by
            simp [Core.splitNonAlnum, hc, e3]
          have e2 : alnumRuns (c :: d :: t) =
              (c :: (alnumRuns (d :: t)).headD []) :: (alnumRuns (d :: t)).tail := by
            simp [alnumRuns, hc, hd]
          rw [e1, e2, ← ih, e3]
          simp [List.filter]
        · have hd' : isAlnumCode d = false := by simpa using hd
          obtain ⟨ws, hws⟩ := splitNonAlnum_sep_head t d hd'
          have e1 : Core.splitNonAlnum (c :: d :: t) = [c] :: ws := by
            simp [Core.splitNonAlnum, hc, hws]
          have e2 : alnumRuns (c :: d :: t) = [c] :: alnumRuns (d :: t) := by
            simp [alnumRuns, hc, hd']
          rw [e1, e2, ← ih, hws]
          simp [List.filter]
      · have hc' : isAlnumCode c = false := by simpa using hc
        have e2 : alnumRuns (c :: d :: t) = alnumRuns (d :: t) := by
          simp [alnumRuns, hc']
        by_cases hd : isAlnumCode d = true
        · rw [show Core.splitNonAlnum (c :: d :: t) = [] :: Core.splitNonAlnum (d :: t) by
            simp [Core.splitNonAlnum, hc', hd]]
          rw [e2]
          simpa using ih
        · have hd' : isAlnumCode d = false := by simpa using hd
          rw [show Core.splitNonAlnum (c :: d :: t) = Core.splitNonAlnum (d :: t) by
            simp [Core.splitNonAlnum, hc', hd']]
          rw [e2]
          exact ih

theorem flatten_map_capFirst_filter :
    ∀ ws : List Str,
      ((ws.filter (fun w => !w.isEmpty)).map Core.capFirst).flatten =
        (ws.map Core.capFirst).flatten := by
  intro ws
  induction ws with
  | nil => rfl
  | cons w ws ih =>
    cases w with
    | nil => simpa [List.filter, Core.capFirst] using ih
    | cons a t => simp [List.filter, ih]

theorem standardize_label_eq_labelSpec :
    ∀ s : Str, Core.standardize_label s = labelSpec s := by
  intro s
  cases s with
  | nil => rfl
  | cons c cs =>
    unfold Core.standardize_label labelSpec
    rw [List.isEmpty_cons, if_neg (by simp)]
    rw [← splitNonAlnum_filter_eq_alnumRuns, flatten_map_capFirst_filter]

theorem upperCode_idem (c : Nat) : upperCode (upperCode c) = upperCode c := by
  unfold upperCode
  split_ifs with h1 h2 <;> simp_all [Bool.and_eq_true, decide_eq_true_eq] <;> omega

theorem upperCode_alnum {c : Nat} (h : isAlnumCode c = true) :
    isAlnumCode (upperCode c) = true := by
  unfold upperCode
  split_ifs with h1
  · simp only [Bool.and_eq_true, decide_eq_true_eq] at h1
    simp only [isAlnumCode, Bool.or_eq_true, Bool.and_eq_true, decide_eq_true_eq]
    omega
  · exact h

theorem lowerCode_alnum {c : Nat} (h : isAlnumCode c = true) :
    isAlnumCode (lowerCode c) = true := by
  unfold lowerCode
  split_ifs with h1
  · simp only [Bool.and_eq_true, decide_eq_true_eq] at h1
    simp only [isAlnumCode, Bool.or_eq_true, Bool.and_eq_true, decide_eq_true_eq]
    omega
  · exact h

theorem alnumRuns_alnum_head {d : Nat} (t : Str) (hd : isAlnumCode d = true) :
    ∃ X B, alnumRuns (d :: t) = (d :: X) :: B := by
  cases t with
  | nil => exact ⟨[], [], by simp [alnumRuns, hd]⟩
  | cons e u =>
    by_cases he : isAlnumCode e = true
    · exact ⟨(alnumRuns (e :: u)).headD [], (alnumRuns (e :: u)).tail,
        by simp [alnumRuns, hd, he]⟩
    · have he' : isAlnumCode e = false := by simpa using he
      exact ⟨[], alnumRuns (e :: u), by simp [alnumRuns, hd, he']⟩

theorem alnumRuns_all_alnum :
    ∀ s : Str, ∀ w ∈ alnumRuns s, w.all isAlnumCode = true := by
  intro s
  induction s with
  | nil => simp [alnumRuns]
  | cons c cs ih =>
    cases cs with
    | nil =>
      by_cases hc : isAlnumCode c = true <;> simp [alnumRuns, hc]
    | cons d t =>
      by_cases hc : isAlnumCode c = true
      · by_cases hd : isAlnumCode d = true
        · obtain ⟨X, B, e3⟩ := alnumRuns_alnum_head t hd
          have e2 : alnumRuns (c :: d :: t) = (c :: d :: X) :: B := by
            simp [alnumRuns, hc, hd, e3]
          rw [e2]
          intro w hw
          rcases List.mem_cons.mp hw with rfl | hwB
          · have h1 : (d :: X).all isAlnumCode = true :=
              ih (d :: X) (e3 ▸ List.mem_cons_self _ _)
            simp only [List.all_cons, Bool.and_eq_true] at h1 ⊢
            exact ⟨hc, h1⟩
          · exact ih w (e3 ▸ List.mem_cons_of_mem _ hwB)
        · have hd' : isAlnumCode d = false := by simpa using hd
          have e2 : alnumRuns (c :: d :: t) = [c] :: alnumRuns (d :: t) := by
            simp [alnumRuns, hc, hd']
          rw [e2]
          intro w hw
          rcases List.mem_cons.mp hw with rfl | hwB
          · simp [hc]
          · exact ih w hwB
      · have hc' : isAlnumCode c = false := by simpa using hc
        rw [show alnumRuns (c :: d :: t) = alnumRuns (d :: t) by simp [alnumRuns, hc']]
        exact ih

theorem labelSpec_all_alnum (s : Str) : (labelSpec s).all isAlnumCode = true := by
  rw [List.all_eq_true]
  intro c hc
  rw [labelSpec, List.mem_flatten] at hc
  obtain ⟨w, hw, hcw⟩ := hc
  rw [List.mem_map] at hw
  obtain ⟨w', hw', rfl⟩ := hw
  have hall := alnumRuns_all_alnum s w' hw'
  cases w' with
  | nil => simp [Core.capFirst] at hcw
  | cons a t =>
    simp only [List.all_cons, Bool.and_eq_true] at hall
    simp only [Core.capFirst, List.mem_cons] at hcw
    rcases hcw with rfl | hct
    · exact upperCode_alnum hall.1
    · rw [List.all_eq_true] at hall
      exact hall.2 c hct

theorem flatten_capFirst_headUpper :
    ∀ ws : List Str, headUpperInv ((ws.map Core.capFirst).flatten) := by
  intro ws
  induction ws with
  | nil => trivial
  | cons w ws ih =>
    cases w with
    | nil => simpa [Core.capFirst] using ih
    | cons a t =>
      show headUpperInv ((upperCode a :: t) ++ _)
      show upperCode (upperCode a) = upperCode a
      exact upperCode_idem a

theorem splitNonAlnum_all_alnum :
    ∀ r : Str, r.all isAlnumCode = true → r ≠ [] → Core.splitNonAlnum r = [r] := by
  intro r
  induction r with
  | nil => intro _ h; exact absurd rfl h
  | cons a t ih =>
    intro hall _
    simp only [List.all_cons, Bool.and_eq_true] at hall
    cases t with
    | nil => simp [Core.splitNonAlnum, hall.1]
    | cons b u =>
      rw [show Core.splitNonAlnum (a :: b :: u) =
          (a :: (Core.splitNonAlnum (b :: u)).headD []) ::
            (Core.splitNonAlnum (b :: u)).tail by
        simp [Core.splitNonAlnum, hall.1]]
      rw [ih hall.2 (by simp)]
      simp

/-- C2: `standardize_label` is idempotent: for every string `x` (including
arbitrary text and already-canonical strings),
`standardize_label(standardize_label(x)) == standardize_label(x)`. -/
theorem standardize_label_idempotent :
    ∀ s : Str,
      Core.standardize_label (Core.standardize_label s) = Core.standardize_label s := by
  intro s
  rw [standardize_label_eq_labelSpec s]
  cases hre : labelSpec s with
  | nil => simp [Core.standardize_label]
  | cons a t =>
    have hall : (labelSpec s).all isAlnumCode = true := labelSpec_all_alnum s
    have hhead : headUpperInv (labelSpec s) := flatten_capFirst_headUpper (alnumRuns s)
    rw [hre] at hall hhead
    have hsplit := splitNonAlnum_all_alnum (a :: t) hall (by simp)
    show Core.standardize_label (a :: t) = a :: t
    unfold Core.standardize_label
    rw [List.isEmpty_cons, if_neg (by simp), hsplit]
    simp only [List.map_cons, List.map_nil, List.flatten_cons, List.flatten_nil,
      List.append_nil, Core.capFirst]
    rw [show upperCode a = a from hhead]

/-- C3: `standardize_label`, applied to any string, splits it into maximal
runs of alphanumeric characters, discards all other characters, capitalizes
the first character of each run (leaving the remaining characters of the run
unchanged), and concatenates the runs with no separator; in particular
`standardize_label("Drug/Ingredient") == "DrugIngredient"` and
`standardize_label("") == ""`. -/
theorem standardize_label_matches_spec :
    (∀ s : Str, Core.standardize_label s = labelSpec s) ∧
    Core.standardize_label (enc "Drug/Ingredient") = enc "DrugIngredient" ∧
    Core.standardize_label (enc "") = enc "" :=
  ⟨standardize_label_eq_labelSpec, by decide, by decide⟩

theorem splitOnCode_ne_nil (d : Nat) : ∀ l : Str, splitOnCode d l ≠ [] := by
  intro l
  cases l with
  | nil => simp [splitOnCode]
  | cons c cs =>
    by_cases hc : c = d <;> simp [splitOnCode, hc]

theorem mem_splitOnCode (d : Nat) :
    ∀ (l : Str) (w : Str), w ∈ splitOnCode d l → ∀ c ∈ w, c ≠ d ∧ c ∈ l := by
  intro l
  induction l with
  | nil =>
    intro w hw c hc
    simp only [splitOnCode, List.mem_singleton] at hw
    subst hw
    simp at hc
  | cons e cs ih =>
    intro w hw c hc
    by_cases he : e = d
    · rw [show splitOnCode d (e :: cs) = [] :: splitOnCode d cs by
        simp [splitOnCode, he]] at hw
      rcases List.mem_cons.mp hw with rfl | hw'
      · simp at hc
      · obtain ⟨h1, h2⟩ := ih w hw' c hc
        exact ⟨h1, List.mem_cons_of_mem _ h2⟩
    · cases hsp : splitOnCode d cs with
      | nil => exact absurd hsp (splitOnCode_ne_nil d cs)
      | cons w' ws' =>
        rw [show splitOnCode d (e :: cs) = (e :: w') :: ws' by
          simp [splitOnCode, he, hsp]] at hw
        rcases List.mem_cons.mp hw with rfl | hw2
        · rcases List.mem_cons.mp hc with rfl | hcw'
          · exact ⟨he, List.mem_cons_self _ _⟩
          · obtain ⟨h1, h2⟩ := ih w' (hsp ▸ List.mem_cons_self _ _) c hcw'
            exact ⟨h1, List.mem_cons_of_mem _ h2⟩
        · obtain ⟨h1, h2⟩ := ih w (hsp ▸ List.mem_cons_of_mem _ hw2) c hc
          exact ⟨h1, List.mem_cons_of_mem _ h2⟩

theorem subKeepUnd_chars {s : Str} {c : Nat} (hc : c ∈ Alt.subKeepUnd s) :
    isAlnumCode c = true ∨ c = 95 := by
  rw [Alt.subKeepUnd, List.mem_map] at hc
  obtain ⟨a, _, rfl⟩ := hc
  by_cases h : isWordCode a = true
  · rw [if_pos h]
    simpa [isWordCode, Bool.or_eq_true] using h
  · rw [if_neg h]
    exact Or.inr rfl

theorem alt_label_all_alnum (s : Str) :
    (Alt.standardize_label s).all isAlnumCode = true := by
  cases s with
  | nil => simp [Alt.standardize_label]
  | cons x xs =>
    unfold Alt.standardize_label
    rw [List.isEmpty_cons, if_neg (by simp)]
    rw [List.all_eq_true]
    intro c hc
    rw [List.mem_flatten] at hc
    obtain ⟨w, hw, hcw⟩ := hc
    rw [List.mem_map] at hw
    obtain ⟨w', hw', rfl⟩ := hw
    have hw'' : w' ∈ splitOnCode 95 (Alt.subKeepUnd (x :: xs)) :=
      List.mem_of_mem_filter hw'
    cases w' with
    | nil => simp [pyCapitalize] at hcw
    | cons a t =>
      simp only [pyCapitalize, List.mem_cons] at hcw
      have hmema := mem_splitOnCode 95 _ _ hw'' a (List.mem_cons_self _ _)
      rcases hcw with rfl | hct
      · have : isAlnumCode a = true := by
          rcases subKeepUnd_chars hmema.2 with h | h
          · exact h
          · exact absurd h hmema.1
        exact upperCode_alnum this
      · rw [List.mem_map] at hct
        obtain ⟨b, hbt, rfl⟩ := hct
        have hmemb := mem_splitOnCode 95 _ _ hw'' b (List.mem_cons_of_mem _ hbt)
        have : isAlnumCode b = true := by
          rcases subKeepUnd_chars hmemb.2 with h | h
          · exact h
          · exact absurd h hmemb.1
        exact lowerCode_alnum this

/-- C10: for every input string, the output of `standardize_label` consists
only of ASCII alphanumeric characters (it contains no underscores, spaces, or
other separator characters); proved for both trees' implementations. -/
theorem standardize_label_output_alnum :
    ∀ s : Str, (Core.standardize_label s).all isAlnumCode = true ∧
      (Alt.standardize_label s).all isAlnumCode = true := by
  intro s
  refine ⟨?_, alt_label_all_alnum s⟩
  rw [standardize_label_eq_labelSpec s]
  exact labelSpec_all_alnum s

/-- C4: for every concept row, the transformed label set is a deterministic
pure function of (domain identifier, standard flag): it is
`{Concept, standardize_label(domain_id)}` plus the `Standard` label if and
only if the standard-flag field equals `'S'`; a standard row with domain
`"Drug"` yields `Concept;Drug;Standard` and the same row without the flag
yields `Concept;Drug` (labels joined by `';'`, code 59). -/
theorem concept_label_set :
    (∀ d sc : Str,
      Core.conceptLabelField d sc = List.intercalate [59] (conceptLabels d sc)) ∧
    Core.conceptLabelField (enc "Drug") (enc "S") = enc "Concept;Drug;Standard" ∧
    Core.conceptLabelField (enc "Drug") (enc "") = enc "Concept;Drug" := by
  refine ⟨?_, by decide, by decide⟩
  intro d sc
  unfold Core.conceptLabelField conceptLabels
  have h1 : enc "Concept;" = enc "Concept" ++ [59] := by decide
  have h2 : enc ";Standard" = [59] ++ enc "Standard" := by decide
  by_cases h : sc = enc "S"
  · rw [if_pos h, if_pos h, h1, h2]
    simp [List.intercalate, List.intersperse]
  · rw [if_neg h, if_neg h, h1]
    simp [List.intercalate, List.intersperse]

/-- C9: the synonym list of a loaded Concept is derived from the packed
synonym field: an empty or absent field yields a list of length 0, and
otherwise the field is split on the `'|'` delimiter (code 124) preserving
order with no deduplication; `"a|b|c"` yields `["a","b","c"]` in order. -/
theorem synonyms_derivation :
    Alt.synonymsProperty none = [] ∧
    Alt.synonymsProperty (some (enc "")) = [] ∧
    (∀ (c : Nat) (s : Str),
      Alt.synonymsProperty (some (c :: s)) = splitOnCode 124 (c :: s)) ∧
    Alt.synonymsProperty (some (enc "a|b|c")) = [enc "a", enc "b", enc "c"] := by
  refine ⟨rfl, by decide, ?_, by decide⟩
  intro c s
  simp [Alt.synonymsProperty]

/-- C7: every run of the online load executes its stages in the fixed order
Clearing, SchemaCreation, LoadMetadata, LoadConcepts, LoadSemanticEdges,
LoadAncestorEdges (Clearing skipped exactly when `--no-clean` is passed);
the executed trace is an initial segment of that order with no stage
repeated (no retry), and if a stage raises it is the last stage executed,
everything before it having succeeded; when nothing raises the whole
planned order runs. -/
theorem load_csv_stage_order :
    ∀ noClean confirmWipe b1 b2 b3 b4 b5 b6 : Bool,
      noClean = true ∨ confirmWipe = true →
      isInitSeg (load_csv noClean confirmWipe (mkOutcome b1 b2 b3 b4 b5 b6)).1
          (plannedStages noClean) = true ∧
      (load_csv noClean confirmWipe (mkOutcome b1 b2 b3 b4 b5 b6)).1.Nodup ∧
      ((load_csv noClean confirmWipe (mkOutcome b1 b2 b3 b4 b5 b6)).2 = false →
        ∃ s : Stage,
          (load_csv noClean confirmWipe (mkOutcome b1 b2 b3 b4 b5 b6)).1.getLast?
              = some s ∧
          mkOutcome b1 b2 b3 b4 b5 b6 s = false ∧
          ∀ x ∈ (load_csv noClean confirmWipe
              (mkOutcome b1 b2 b3 b4 b5 b6)).1.dropLast,
            mkOutcome b1 b2 b3 b4 b5 b6 x = true) ∧
      ((load_csv noClean confirmWipe (mkOutcome b1 b2 b3 b4 b5 b6)).2 = true →
        (load_csv noClean confirmWipe (mkOutcome b1 b2 b3 b4 b5 b6)).1 =
          plannedStages noClean) := by
  decide

/-- Witness for C7: a concrete run (`--no-clean` absent, wipe confirmed,
`load_concepts` failing) satisfying the hypothesis and the conclusion. -/
theorem load_csv_stage_order_witness :
    (false = true ∨ true = true) ∧
    (isInitSeg (load_csv false true (mkOutcome true true true false true true)).1
        (plannedStages false) = true ∧
     (load_csv false true (mkOutcome true true true false true true)).1.Nodup ∧
     ((load_csv false true (mkOutcome true true true false true true)).2 = false →
       ∃ s : Stage,
         (load_csv false true (mkOutcome true true true false true true)).1.getLast?
             = some s ∧
         mkOutcome true true true false true true s = false ∧
         ∀ x ∈ (load_csv false true
             (mkOutcome true true true false true true)).1.dropLast,
           mkOutcome true true true false true true x = true) ∧
     ((load_csv false true (mkOutcome true true true false true true)).2 = true →
       (load_csv false true (mkOutcome true true true false true true)).1 =
         plannedStages false)) :=
  ⟨Or.inr rfl,
    load_csv_stage_order false true true true true false true true (Or.inr rfl)⟩

theorem chunksOfAux_fuel_irrel {α : Type} (n : Nat) :
    ∀ (f1 : Nat) (l : List α), l.length ≤ f1 → ∀ f2, l.length ≤ f2 →
      chunksOfAux n f1 l = chunksOfAux n f2 l := by
  intro f1
  induction f1 with
  | zero =>
    intro l hl f2 _
    cases l with
    | nil => cases f2 <;> rfl
    | cons x xs => simp at hl
  | succ f ih =>
    intro l hl f2 h2
    cases l with
    | nil => cases f2 <;> rfl
    | cons x xs =>
      cases f2 with
      | zero => simp at h2
      | succ f2' =>
        simp only [chunksOfAux]
        congr 1
        apply ih
        · simp only [List.length_drop]; simp at hl; omega
        · simp only [List.length_drop]; simp at h2; omega

theorem chunksOf_cons {α : Type} (n : Nat) (x : α) (xs : List α) :
    chunksOf n (x :: xs) =
      (x :: xs.take (n - 1)) :: chunksOf n (xs.drop (n - 1)) := by
  simp only [chunksOf, List.length_cons, chunksOfAux]
  congr 1
  apply chunksOfAux_fuel_irrel
  · simp only [List.length_drop]; omega
  · exact le_rfl

theorem chunksOf_flatten {α : Type} (n : Nat) :
    ∀ l : List α, (chunksOf n l).flatten = l := by
  have key : ∀ (k : Nat) (l : List α), l.length ≤ k → (chunksOf n l).flatten = l := by
    intro k
    induction k with
    | zero =>
      intro l hl
      cases l with
      | nil => simp [chunksOf, chunksOfAux]
      | cons x xs => simp at hl
    | succ k ih =>
      intro l hl
      cases l with
      | nil => simp [chunksOf, chunksOfAux]
      | cons x xs =>
        rw [chunksOf_cons]
        simp only [List.flatten_cons, List.cons_append]
        rw [ih (xs.drop (n - 1)) (by simp only [List.length_drop]; simp at hl; omega)]
        simp [List.take_append_drop]
  intro l
  exact key l.length l le_rfl

theorem zipWith_map_same {α β γ δ : Type} (f : β → γ → δ) (g : α → β) (h : α → γ)
    (l : List α) :
    List.zipWith f (l.map g) (l.map h) = l.map (fun x => f (g x) (h x)) := by
  induction l with
  | nil => rfl
  | cons a t ih => simp [ih]

theorem zipWith_self_map {α γ δ : Type} (f : α → γ → δ) (h : α → γ) (l : List α) :
    List.zipWith f l (l.map h) = l.map (fun x => f x (h x)) := by
  induction l with
  | nil => rfl
  | cons a t ih => simp [ih]

theorem zip_map_same {α β γ : Type} (g : α → β) (h : α → γ) (l : List α) :
    (l.map g).zip (l.map h) = l.map (fun x => (g x, h x)) := by
  induction l with
  | nil => rfl
  | cons a t ih => simp [ih]

theorem ite_append_assoc (x y z : Str) (b : Prop) [Decidable b] :
    (if b then x ++ (y ++ z) else x ++ y) = x ++ (y ++ if b then z else []) := by
  split_ifs <;> simp

theorem processConceptChunk_concrete (rs : List (List Val))
    (h : ∀ r ∈ rs, r.length = 11) :
    Alt.processConceptChunk ⟨conceptFileCols, rs⟩ =
      .ok (⟨Alt.nodeCols, rs.map Alt.nodeRowOfRow⟩,
           ⟨Alt.domRelCols, rs.map Alt.domRelOfRow⟩,
           ⟨Alt.vocRelCols, rs.map Alt.vocRelOfRow⟩) := by
  unfold Alt.processConceptChunk
  simp [DF.rename, DF.getCol, DF.setCol, DF.select, DF.setConstCol,
    colIdx, renameKey, conceptFileCols, Alt.conceptRenameMap, Alt.nodeCols,
    Bind.bind, Except.bind,
    zipWith_map_same, zipWith_self_map, zip_map_same, List.map_map]
  refine congrArg Except.ok ?_
  simp only [Prod.mk.injEq, DF.mk.injEq]
  refine ⟨⟨trivial, ?_⟩, ⟨trivial, ?_⟩, trivial, ?_⟩
  all_goals {
    apply List.map_congr_left
    intro r hr
    have hl := h r hr
    clear h hr
    rcases r with _ | ⟨a0, _ | ⟨a1, _ | ⟨a2, _ | ⟨a3, _ | ⟨a4, _ | ⟨a5, _ | ⟨a6, _ |
      ⟨a7, _ | ⟨a8, _ | ⟨a9, _ | ⟨a10, rest⟩⟩⟩⟩⟩⟩⟩⟩⟩⟩⟩ <;>
      simp_all [Alt.nodeRowOfRow, Alt.conceptLabelOfRow, Alt.domRelOfRow,
        Alt.vocRelOfRow, Function.comp, ite_append_assoc]
  }

theorem runChunks3_concrete (n : Nat) :
    ∀ rs : List (List Val), (∀ r ∈ rs, r.length = 11) →
      Alt.runChunks3 Alt.processConceptChunk
        ((chunksOf n rs).map (fun x => DF.mk conceptFileCols x)) =
        ((rs.map Alt.nodeRowOfRow, rs.map Alt.domRelOfRow,
          rs.map Alt.vocRelOfRow), none) := by
  have key : ∀ (k : Nat) (rs : List (List Val)), rs.length ≤ k →
      (∀ r ∈ rs, r.length = 11) →
      Alt.runChunks3 Alt.processConceptChunk
        ((chunksOf n rs).map (fun x => DF.mk conceptFileCols x)) =
        ((rs.map Alt.nodeRowOfRow, rs.map Alt.domRelOfRow,
          rs.map Alt.vocRelOfRow), none) := by
    intro k
    induction k with
    | zero =>
      intro rs hl _
      cases rs with
      | nil => simp [chunksOf, Alt.runChunks3]
      | cons x xs => simp at hl
    | succ k ih =>
      intro rs hl hlen
      cases rs with
      | nil => simp [chunksOf, Alt.runChunks3]
      | cons x xs =>
        rw [chunksOf_cons]
        simp only [List.map_cons]
        have hchunk : ∀ r ∈ x :: xs.take (n - 1), r.length = 11 := by
          intro r hr
          rcases List.mem_cons.mp hr with rfl | hrt
          · exact hlen r (List.mem_cons_self _ _)
          · exact hlen r (List.mem_cons_of_mem _ (List.take_subset _ _ hrt))
        have hrest : ∀ r ∈ xs.drop (n - 1), r.length = 11 := fun r hr =>
          hlen r (List.mem_cons_of_mem _ (List.drop_subset _ _ hr))
        have hlrest : (xs.drop (n - 1)).length ≤ k := by
          simp only [List.length_drop]
          simp at hl
          omega
        rw [Alt.runChunks3, processConceptChunk_concrete _ hchunk]
        rw [ih (xs.drop (n - 1)) hlrest hrest]
        simp only [← List.map_append, ← List.map_cons]
        rw [List.cons_append, List.take_append_drop]
  intro rs hlen
  exact key rs.length rs le_rfl hlen

/-- C6: for every input concept file of N rows (processed in any number of
chunks), the transformed node file contains exactly N record rows, and
exactly 2N contextual relationship records are emitted: one `IN_DOMAIN`
edge and one `FROM_VOCABULARY` edge per input row, each derived directly
from that row's domain/vocabulary fields (`domRelOfRow`, `vocRelOfRow` read
only the row itself) without any lookup against the Domain/Vocabulary
files. -/
theorem transform_concepts_counts :
    ∀ (chunkSize : Nat) (rs : List (List Val)),
      (∀ r ∈ rs, r.length = 11) → rs ≠ [] →
      Alt.transform_concepts_and_contextual_rels chunkSize ⟨conceptFileCols, rs⟩ =
        ([("nodes_concepts.csv", ⟨Alt.nodeCols, rs.map Alt.nodeRowOfRow⟩),
          ("rels_in_domain.csv", ⟨Alt.domRelCols, rs.map Alt.domRelOfRow⟩),
          ("rels_from_vocabulary.csv", ⟨Alt.vocRelCols, rs.map Alt.vocRelOfRow⟩)],
          none) ∧
      (rs.map Alt.nodeRowOfRow).length = rs.length ∧
      (rs.map Alt.domRelOfRow).length + (rs.map Alt.vocRelOfRow).length
        = 2 * rs.length := by
  intro chunkSize rs hlen hne
  refine ⟨?_, by simp, by simp; omega⟩
  simp only [Alt.transform_concepts_and_contextual_rels]
  rw [runChunks3_concrete chunkSize rs hlen]
  simp [hne]

/-- Witness for C6: the two-row fixture, processed in chunks of one row. -/
theorem transform_concepts_counts_witness :
    (∀ r ∈ [[enc "1001", enc "Aspirin", enc "Drug", enc "RxNorm",
        enc "Ingredient", enc "S", enc "A1", enc "2000-01-01",
        enc "2099-12-31", enc "", enc "x|y"],
      [enc "1002", enc "Headache", enc "Condition", enc "SNOMED",
        enc "Finding", enc "", enc "B2", enc "2000-01-01",
        enc "2099-12-31", enc "", enc ""]], r.length = 11) ∧
    ([[enc "1001", enc "Aspirin", enc "Drug", enc "RxNorm",
        enc "Ingredient", enc "S", enc "A1", enc "2000-01-01",
        enc "2099-12-31", enc "", enc "x|y"],
      [enc "1002", enc "Headache", enc "Condition", enc "SNOMED",
        enc "Finding", enc "", enc "B2", enc "2000-01-01",
        enc "2099-12-31", enc "", enc ""]] : List (List Val)) ≠ [] ∧
    ((Alt.transform_concepts_and_contextual_rels 1
        ⟨conceptFileCols,
          [[enc "1001", enc "Aspirin", enc "Drug", enc "RxNorm",
            enc "Ingredient", enc "S", enc "A1", enc "2000-01-01",
            enc "2099-12-31", enc "", enc "x|y"],
          [enc "1002", enc "Headache", enc "Condition", enc "SNOMED",
            enc "Finding", enc "", enc "B2", enc "2000-01-01",
            enc "2099-12-31", enc "", enc ""]]⟩).1.length = 3 ∧
      (Alt.transform_concepts_and_contextual_rels 1
        ⟨conceptFileCols,
          [[enc "1001", enc "Aspirin", enc "Drug", enc "RxNorm",
            enc "Ingredient", enc "S", enc "A1", enc "2000-01-01",
            enc "2099-12-31", enc "", enc "x|y"],
          [enc "1002", enc "Headache", enc "Condition", enc "SNOMED",
            enc "Finding", enc "", enc "B2", enc "2000-01-01",
            enc "2099-12-31", enc "", enc ""]]⟩).2 = none) := by
  refine ⟨by decide, by decide, ?_, ?_⟩ <;>
    rw [(transform_concepts_counts 1 _ (by decide) (by decide)).1] <;> decide

theorem metadata_writes_no_ancestor (d v df : DF) :
    ("rels_ancestor.csv", df) ∉ (Alt.transform_metadata_nodes d v).1 := by
  intro h
  simp only [Alt.transform_metadata_nodes] at h
  split at h
  · simp at h
  · split at h <;> simp at h

theorem concepts_writes_no_ancestor (n : Nat) (c df : DF) :
    ("rels_ancestor.csv", df) ∉
      (Alt.transform_concepts_and_contextual_rels n c).1 := by
  intro h
  simp only [Alt.transform_concepts_and_contextual_rels] at h
  split at h <;> simp at h

theorem semantic_writes_no_ancestor (n : Nat) (r df : DF) :
    ("rels_ancestor.csv", df) ∉ (Alt.transform_semantic_rels n r).1 := by
  intro h
  simp only [Alt.transform_semantic_rels] at h
  split at h <;> simp at h

/-- C8: during transformation, a malformed input (a missing required column)
aborts only the transformation of the file currently being processed:
`prepare_for_bulk_import`'s output is exactly the writes of the completed
earlier transforms (left as they were, not rolled back) plus the failing
transform's partial writes, the error is surfaced, and the later ancestor
table is never transformed. -/
theorem prepare_bulk_failure_isolation :
    ∀ (chunkSize : Nat) (dIn vIn cIn rIn aIn : DF) (w1 w2 w3 : List Write)
      (e : String),
      Alt.transform_metadata_nodes dIn vIn = (w1, none) →
      Alt.transform_concepts_and_contextual_rels chunkSize cIn = (w2, none) →
      Alt.transform_semantic_rels chunkSize rIn = (w3, some e) →
      Alt.prepare_for_bulk_import chunkSize dIn vIn cIn rIn aIn
          = (w1 ++ w2 ++ w3, some e) ∧
      ∀ df : DF, ("rels_ancestor.csv", df) ∉
        (Alt.prepare_for_bulk_import chunkSize dIn vIn cIn rIn aIn).1 := by
  intro n d v c r a w1 w2 w3 e h1 h2 h3
  have hp : Alt.prepare_for_bulk_import n d v c r a = (w1 ++ w2 ++ w3, some e) := by
    simp only [Alt.prepare_for_bulk_import, h1, h2, h3]
  refine ⟨hp, ?_⟩
  intro df hmem
  rw [hp] at hmem
  simp only [List.mem_append] at hmem
  have e1 : w1 = (Alt.transform_metadata_nodes d v).1 := by rw [h1]
  have e2 : w2 = (Alt.transform_concepts_and_contextual_rels n c).1 := by rw [h2]
  have e3 : w3 = (Alt.transform_semantic_rels n r).1 := by rw [h3]
  rcases hmem with (hm | hm) | hm
  · exact metadata_writes_no_ancestor d v df (e1 ▸ hm)
  · exact concepts_writes_no_ancestor n c df (e2 ▸ hm)
  · exact semantic_writes_no_ancestor n r df (e3 ▸ hm)

/-- Witness for C8: with the vocabulary/domain/concept fixtures well formed
and the semantic file missing `relationship_id`, preparation keeps exactly
the metadata and concept writes, reports the `KeyError`, and writes no
ancestor file. -/
theorem prepare_bulk_failure_isolation_witness :
    Alt.transform_metadata_nodes fxDomain fxVocab = (fxMetaWrites, none) ∧
    Alt.transform_concepts_and_contextual_rels 2 fxConcepts
        = (fxConceptWrites, none) ∧
    Alt.transform_semantic_rels 2 fxRelMissing
        = ([], some "KeyError: relationship_id") ∧
    Alt.prepare_for_bulk_import 2 fxDomain fxVocab fxConcepts fxRelMissing
        fxAncestor = (fxMetaWrites ++ fxConceptWrites ++ [], some "KeyError: relationship_id") :=
  ⟨by decide, by decide, by decide,
    (prepare_bulk_failure_isolation 2 fxDomain fxVocab fxConcepts fxRelMissing
      fxAncestor fxMetaWrites fxConceptWrites [] "KeyError: relationship_id"
      (by decide) (by decide) (by decide)).1⟩

theorem lookup_mem {α β : Type} [BEq α] [LawfulBEq α] (l : List (α × β)) (a : α)
    (b : β) : l.lookup a = some b → (a, b) ∈ l := by
  induction l with
  | nil => intro h; simp [List.lookup] at h
  | cons x t ih =>
    intro h
    obtain ⟨k, v⟩ := x
    rw [List.lookup] at h
    by_cases hk : a == k
    · rw [hk] at h
      obtain rfl : v = b := by injection h
      obtain rfl : a = k := eq_of_beq hk
      exact List.mem_cons_self _ _
    · have hk' : (a == k) = false := by simpa using hk
      rw [hk'] at h
      exact List.mem_cons_of_mem _ (ih h)

theorem getLast?_append_pair {α : Type} (l : List α) (x y : α) :
    (l ++ [x, y]).getLast? = some y := by
  induction l with
  | nil => rfl
  | cons a t ih =>
    rw [List.cons_append, List.getLast?_cons]
    simpa using ih

theorem headerLoop_spec (dir flag : String) (store : List Write) :
    ∀ (pairs : List (String × String)) (hw : List Write) (ps : List String),
      Core.headerLoop dir flag store pairs = .ok (hw, ps) →
      ∀ p ∈ pairs, ∃ df : DF,
        store.lookup p.1 = some df ∧ (p.2, DF.mk df.cols []) ∈ hw ∧
        ("  --" ++ flag ++ "='" ++ joinPath dir p.2 ++ "' \\") ∈ ps ∧
        ("  --" ++ flag ++ "='" ++ joinPath dir p.1 ++ "' \\") ∈ ps := by
  intro pairs
  induction pairs with
  | nil => intro hw ps _ p hp; simp at hp
  | cons q rest ih =>
    intro hw ps h p hp
    obtain ⟨dName, hName⟩ := q
    rw [Core.headerLoop] at h
    cases hlk : store.lookup dName with
    | none => rw [hlk] at h; simp at h
    | some df =>
      rw [hlk] at h
      simp only [Bind.bind, Except.bind] at h
      split at h
      · simp at h
      · next pr hrest =>
        obtain ⟨ws2, ps2⟩ := pr
        simp only [Except.ok.injEq, Prod.mk.injEq] at h
        obtain ⟨rfl, rfl⟩ := h
        rcases List.mem_cons.mp hp with rfl | hp'
        · exact ⟨df, hlk, List.mem_cons_self _ _, List.mem_cons_self _ _,
            List.mem_cons_of_mem _ (List.mem_cons_self _ _)⟩
        · obtain ⟨df', h1, h2, h3, h4⟩ := ih ws2 ps2 hrest p hp'
          exact ⟨df', h1, List.mem_cons_of_mem _ h2,
            List.mem_cons_of_mem _ (List.mem_cons_of_mem _ h3),
            List.mem_cons_of_mem _ (List.mem_cons_of_mem _ h4)⟩

/-- C5: offline bulk preparation produces, for every node and relationship
category, a separate header file containing only the column names together
with the data file, and the generated bulk-import command string names every
such header/data file pair plus the global options field delimiter `','`,
array-element delimiter `'|'`, and the destination database name `neo4j`
(the command being the newline-join of its parts). -/
theorem prepare_bulk_headers_and_command :
    ∀ (dir : String) (chunkSize : Nat) (dIn vIn cIn rIn aIn : DF)
      (ws : List Write) (parts : List String) (cmd : String),
      Core.prepare_for_bulk_import dir chunkSize dIn vIn cIn rIn aIn
          = .ok (ws, parts, cmd) →
      (∀ p ∈ Core.nodeHeaderPairs, ∃ df : DF,
        (p.1, df) ∈ ws ∧ (p.2, DF.mk df.cols []) ∈ ws ∧
        ("  --nodes='" ++ joinPath dir p.2 ++ "' \\") ∈ parts ∧
        ("  --nodes='" ++ joinPath dir p.1 ++ "' \\") ∈ parts) ∧
      (∀ p ∈ Core.relHeaderPairs, ∃ df : DF,
        (p.1, df) ∈ ws ∧ (p.2, DF.mk df.cols []) ∈ ws ∧
        ("  --relationships='" ++ joinPath dir p.2 ++ "' \\") ∈ parts ∧
        ("  --relationships='" ++ joinPath dir p.1 ++ "' \\") ∈ parts) ∧
      Core.optionsPart ∈ parts ∧
      parts.getLast? = some "  neo4j" ∧
      cmd = String.intercalate "\n" parts := by
  intro dir n dIn vIn cIn rIn aIn ws parts cmd h
  simp only [Core.prepare_for_bulk_import, Bind.bind, Except.bind, pure,
    Except.pure] at h
  split at h
  · simp at h
  · next trip hE3 =>
    split at h
    · simp at h
    · next srows hE1 =>
      split at h
      · simp at h
      · next pr1 hHL1 =>
        obtain ⟨hw1, ps1⟩ := pr1
        split at h
        · simp at h
        · next pr2 hHL2 =>
          obtain ⟨hw2, ps2⟩ := pr2
          simp only [Except.ok.injEq, Prod.mk.injEq] at h
          obtain ⟨rfl, rfl, rfl⟩ := h
          refine ⟨?_, ?_, ?_, ?_, rfl⟩
          · intro p hp
            obtain ⟨df, hlk, h2, h3, h4⟩ :=
              headerLoop_spec dir "nodes" _ Core.nodeHeaderPairs hw1 ps1 hHL1 p hp
            refine ⟨df, ?_, ?_, ?_, ?_⟩
            · exact List.mem_append_left _ (List.mem_append_left _
                (lookup_mem _ _ _ hlk))
            · exact List.mem_append_left _ (List.mem_append_right _ h2)
            · exact List.mem_append_left _ (List.mem_append_left _
                (List.mem_append_right _ h3))
            · exact List.mem_append_left _ (List.mem_append_left _
                (List.mem_append_right _ h4))
          · intro p hp
            obtain ⟨df, hlk, h2, h3, h4⟩ :=
              headerLoop_spec dir "relationships" _ Core.relHeaderPairs hw2 ps2
                hHL2 p hp
            refine ⟨df, ?_, ?_, ?_, ?_⟩
            · exact List.mem_append_left _ (List.mem_append_left _
                (lookup_mem _ _ _ hlk))
            · exact List.mem_append_right _ h2
            · exact List.mem_append_left _ (List.mem_append_right _ h3)
            · exact List.mem_append_left _ (List.mem_append_right _ h4)
          · exact List.mem_append_right _ (List.mem_cons_self _ _)
          · exact getLast?_append_pair _ _ _

/-- Witness for C5: a concrete end-to-end run of the offline preparation,
with every hypothesis discharged at these fixtures and the conclusion
obtained by the theorem. -/
theorem prepare_bulk_headers_and_command_witness :
    Core.prepare_for_bulk_import "bulk_import" 2 fxDomain fxVocab fxConcepts
        fxRels fxAncestor
      = .ok (fxPrepWrites, fxPrepParts, String.intercalate "\n" fxPrepParts) ∧
    ((∀ p ∈ Core.nodeHeaderPairs, ∃ df : DF,
        (p.1, df) ∈ fxPrepWrites ∧ (p.2, DF.mk df.cols []) ∈ fxPrepWrites ∧
        ("  --nodes='" ++ joinPath "bulk_import" p.2 ++ "' \\") ∈ fxPrepParts ∧
        ("  --nodes='" ++ joinPath "bulk_import" p.1 ++ "' \\") ∈ fxPrepParts) ∧
     (∀ p ∈ Core.relHeaderPairs, ∃ df : DF,
        (p.1, df) ∈ fxPrepWrites ∧ (p.2, DF.mk df.cols []) ∈ fxPrepWrites ∧
        ("  --relationships='" ++ joinPath "bulk_import" p.2 ++ "' \\")
            ∈ fxPrepParts ∧
        ("  --relationships='" ++ joinPath "bulk_import" p.1 ++ "' \\")
            ∈ fxPrepParts) ∧
     Core.optionsPart ∈ fxPrepParts ∧
     fxPrepParts.getLast? = some "  neo4j" ∧
     String.intercalate "\n" fxPrepParts = String.intercalate "\n" fxPrepParts) :=
  ⟨by rfl,
    prepare_bulk_headers_and_command "bulk_import" 2 fxDomain fxVocab
      fxConcepts fxRels fxAncestor fxPrepWrites fxPrepParts
      (String.intercalate "\n" fxPrepParts) (by rfl)⟩

end Omop
